import Mathlib

/-!
Verification development for the Wiffle Ball Manager simulation engine
(src/simulation/game_sim.py, probability.py, season_sim.py; src/models).

The Python code is shallowly embedded: machine integers become Int/Nat,
Python floats become exact rationals (Rat), the pseudo-random draws and
injected collaborator results become explicit parameters, and the stateful
loops become explicit state-passing recursion over the injected inputs.
-/

namespace WiffleBall

/-! ## Half-inning state machine (game_sim.py)

`self.bases` is the Python list `[None, None, None]` indexed 0 = first,
1 = second, 2 = third; a slot holds an opaque runner marker. -/

structure Bases where
  first : Bool
  second : Bool
  third : Bool
deriving DecidableEq

/-- Embeds `count_runners` (game_sim.py): number of occupied base slots. -/
def countRunners (b : Bases) : Nat :=
  (if b.first then 1 else 0) + (if b.second then 1 else 0) + (if b.third then 1 else 0)

/-- Set base slot `i` (0-indexed) to occupied, mirroring `new_bases[batter_base] = "batter"`. -/
def setSlot (b : Bases) (i : Nat) : Bases :=
  if i = 0 then { b with first := true }
  else if i = 1 then { b with second := true }
  else { b with third := true }

/-- Embeds `advance_runners` (game_sim.py lines 313-337): each occupied slot `i`
moves to `i + n`; an index `≥ 3` scores and vacates.  Then the batter is
placed on `min (n-1) 2` unless `n = 4` (home run: the batter scores).
Returns the new base state and the runs this call counts. -/
def advanceRunners (b : Bases) (n : Nat) : Bases × Nat :=
  let runs : Nat :=
    (if b.first && decide (3 ≤ n) then 1 else 0) +
    (if b.second && decide (2 ≤ n) then 1 else 0) +
    (if b.third && decide (1 ≤ n) then 1 else 0)
  let moved : Bases :=
    { first := b.first && decide (n = 0)
      second := (b.first && decide (n = 1)) || (b.second && decide (n = 0))
      third := (b.first && decide (n = 2)) || (b.second && decide (n = 1)) ||
               (b.third && decide (n = 0)) }
  if n = 0 then (moved, runs)
  else if n = 4 then (moved, runs + 1)
  else (setSlot moved (min (n - 1) 2), runs)

/-- At-bat outcomes as `simulate_half_inning` (game_sim.py lines 193-218)
consumes them.  `hit b` is a non-home-run-call hit advancing `b` bases
(`AtBatResult.runs_scored = 0`); `homerun` is the `determine_hit_type`
home-run branch, whose `AtBatResult.runs_scored` is `count_runners() + 1`
evaluated at the current base state (game_sim.py lines 284-285). -/
inductive ABOutcome
  | strikeout
  | out
  | walk
  | hbp
  | hit (bases : Nat)
  | homerun
deriving DecidableEq

structure HalfState where
  outs : Nat
  bases : Bases
  runs : Nat
deriving DecidableEq

/-- One iteration of the `while self.outs < 3` loop body of
`simulate_half_inning`: "hit" adds `at_bat.runs_scored` plus the result of
`advance_runners(bases_advanced)`; walk and hbp call `advance_runners(1)`;
strikeout and out add an out. -/
def halfInningStep (s : HalfState) : ABOutcome → HalfState
  | .strikeout => { s with outs := s.outs + 1 }
  | .out => { s with outs := s.outs + 1 }
  | .walk =>
      let m := advanceRunners s.bases 1
      { outs := s.outs, bases := m.1, runs := s.runs + m.2 }
  | .hbp =>
      let m := advanceRunners s.bases 1
      { outs := s.outs, bases := m.1, runs := s.runs + m.2 }
  | .hit b =>
      let m := advanceRunners s.bases b
      { outs := s.outs, bases := m.1, runs := s.runs + m.2 }
  | .homerun =>
      let m := advanceRunners s.bases 4
      { outs := s.outs, bases := m.1, runs := s.runs + (countRunners s.bases + 1) + m.2 }

/-- The `simulate_half_inning` loop over an injected outcome sequence:
stops at 3 outs, at the 30-batter safety cap, or when the injection is
exhausted.  Returns (runs scored, batters faced). -/
def runHalf : HalfState → Nat → List ABOutcome → Nat × Nat
  | s, batters, [] => (s.runs, batters)
  | s, batters, o :: rest =>
    if 3 ≤ s.outs then (s.runs, batters)
    else if 30 ≤ batters then (s.runs, batters)
    else runHalf (halfInningStep s o) (batters + 1) rest

/-- Embeds `simulate_half_inning` from its initial state: 0 outs, empty bases, 0 runs. -/
def simulateHalfInning (l : List ABOutcome) : Nat × Nat :=
  runHalf ⟨0, ⟨false, false, false⟩, 0⟩ 0 l

/-- C1: a single injected home run with the bases empty is recorded as 2 runs
for 1 batter faced, violating runs ≤ batters_faced: `simulate_half_inning`
adds `at_bat.runs_scored` (`count_runners() + 1 = 1`, set by
`determine_hit_type`) and then `advance_runners(4)` scores the batter again. -/
theorem c1_homerun_double_count :
    simulateHalfInning [ABOutcome.homerun] = (2, 1) ∧
    (simulateHalfInning [ABOutcome.homerun]).2 < (simulateHalfInning [ABOutcome.homerun]).1 := by
  constructor <;> decide

/-- C2 counterexample: with a runner on third and first and second base both
open (bases not loaded), a walk scores that runner: the code calls
`advance_runners(1)`, which advances every runner, not only forced ones. -/
theorem c2_walk_unforced_scores :
    halfInningStep ⟨0, ⟨false, false, true⟩, 0⟩ ABOutcome.walk =
      ⟨0, ⟨true, false, false⟩, 1⟩ ∧
    simulateHalfInning [ABOutcome.hit 3, ABOutcome.walk] = (1, 2) := by
  constructor <;> decide

/-- C2 amended: on a walk or hit-by-pitch every runner advances exactly one
base — the batter takes first, the runner on first moves to second, the
runner on second moves to third, and a runner on third always scores,
whether or not they are forced. -/
theorem c2_walk_advances_every_runner (s : HalfState) :
    halfInningStep s ABOutcome.walk =
      ⟨s.outs, ⟨true, s.bases.first, s.bases.second⟩,
        s.runs + (if s.bases.third then 1 else 0)⟩ ∧
    halfInningStep s ABOutcome.hbp =
      ⟨s.outs, ⟨true, s.bases.first, s.bases.second⟩,
        s.runs + (if s.bases.third then 1 else 0)⟩ := by
  obtain ⟨o, ⟨b1, b2, b3⟩, r⟩ := s
  cases b1 <;> cases b2 <;> cases b3 <;>
    simp [halfInningStep, advanceRunners, setSlot]

/-! ## Game orchestrator (`_simulate_full_game`, game_sim.py lines 41-73)

The per-half-inning run totals produced by `simulate_half_inning` are
injected as a list, in play order (away half, then home half, inning by
inning).  An exhausted injection ends the game. -/

/-- The `while not self.game_over` loop of `_simulate_full_game`, started at
an arbitrary inning and score.  Returns (away score, home score, number of
half-innings played).  Mercy rule: a half scoring ≥ 6 runs while
`inning < 3` ends the game at once (after the away half, the home half is
skipped).  From inning 3 on, the game ends after the home half when the
scores differ; tied games continue into extra innings. -/
def playInnings (inning away home : Nat) : List Nat → Nat × Nat × Nat
  | [] => (away, home, 0)
  | [a] => (away + a, home, 1)
  | a :: h :: rest =>
    if inning < 3 ∧ 6 ≤ a then (away + a, home, 1)
    else
      if inning < 3 ∧ 6 ≤ h then (away + a, home + h, 2)
      else if 3 ≤ inning ∧ home + h ≠ away + a then (away + a, home + h, 2)
      else
        let g := playInnings (inning + 1) (away + a) (home + h) rest
        (g.1, g.2.1, g.2.2 + 2)

/-- Embeds `_simulate_full_game`: inning 1, score 0-0. -/
def simulateFullGame (rs : List Nat) : Nat × Nat × Nat :=
  playInnings 1 0 0 rs

/-- C4: (i) an away half with ≥ 6 runs while `inning < 3` ends the game with
that half — the home half of the inning and all later innings are not
played; (ii) a home half with ≥ 6 runs while `inning < 3` ends the game
there; (iii) at inning 3 the rule does not fire: in the concrete game
[0,0 | 0,0 | 6,6 | 0,1] the 6-run away half of inning 3 is followed by the
home half and, the score being tied, by a full extra inning (8 half-innings
in all, final score 6-7). -/
theorem c4_mercy_rule :
    (∀ inning away home a rs, inning < 3 → 6 ≤ a →
      playInnings inning away home (a :: rs) = (away + a, home, 1)) ∧
    (∀ inning away home a h rs, inning < 3 → a < 6 → 6 ≤ h →
      playInnings inning away home (a :: h :: rs) = (away + a, home + h, 2)) ∧
    simulateFullGame [0, 0, 0, 0, 6, 6, 0, 1] = (6, 7, 8) := by
  refine ⟨?_, ?_, by decide⟩
  · intro inning away home a rs hin ha
    cases rs with
    | nil => rfl
    | cons h t =>
      simp only [playInnings]
      rw [if_pos ⟨hin, ha⟩]
  · intro inning away home a h rs hin ha hh
    simp only [playInnings]
    rw [if_neg (by omega), if_pos ⟨hin, hh⟩]

/-- C4 witness: instantiating `c4_mercy_rule` at inning 1, a 6-run away
half, and at inning 2 with a 5-run away half followed by a 6-run home half. -/
theorem c4_mercy_rule_witness :
    playInnings 1 0 0 [6, 4, 3] = (6, 0, 1) ∧
    playInnings 2 1 2 [5, 6] = (6, 8, 2) := by
  constructor
  · have := c4_mercy_rule.1 1 0 0 6 [4, 3] (by decide) (by decide)
    simpa using this
  · have := c4_mercy_rule.2.1 2 1 2 5 6 [] (by decide) (by decide) (by decide)
    simpa using this

/-! ## Player attributes (models/player.py)

`Player` is a plain dataclass: the constructor stores the attribute values
it is given, with defaults of 50; no clamping happens on construction. -/

structure Player where
  age : Int := 20
  power : Int := 50
  contact : Int := 50
  discipline : Int := 50
  speed : Int := 50
  velocity : Int := 50
  movement : Int := 50
  control : Int := 50
  stamina : Int := 50
  deception : Int := 50
  speed_control : Int := 50
  range : Int := 50
  arm_strength : Int := 50
  hands : Int := 50
  reaction : Int := 50
  accuracy : Int := 50
  potential : Int := 50
  leadership : Int := 50
  work_ethic : Int := 50
  durability : Int := 50
  clutch : Int := 50
  composure : Int := 50
deriving DecidableEq

/-- Embeds `DevelopmentEvent.apply_to_player` (development_events.py line 39):
`new_value = max(1, min(100, current_value + change))`. -/
def applyEventChange (current change : Int) : Int :=
  max 1 (min 100 (current + change))

/-- Embeds `PlayerDevelopment.improve_attribute` (player_dev.py line 192):
`new_value = max(1, min(100, current_value + change))`. -/
def improveAttributeValue (current change : Int) : Int :=
  max 1 (min 100 (current + change))

/-- A `Player` constructed with `power=150`: the dataclass stores it as is. -/
def unclampedPlayer : Player := { power := 150 }

/-- C8 counterexample: constructing a `Player` does not clamp — the `power`
attribute of `unclampedPlayer` reads back as 150, outside [1,100]. -/
theorem c8_ctor_unclamped :
    unclampedPlayer.power = 150 ∧ ¬ unclampedPlayer.power ≤ 100 := by
  decide

/-- C8 amended: the development-event and training mutation paths
(`apply_to_player`, `improve_attribute`) clamp the written value into
[1,100]; the `Player` constructor itself stores attributes unclamped. -/
theorem c8_dev_writes_clamped (current change : Int) :
    (1 ≤ applyEventChange current change ∧ applyEventChange current change ≤ 100) ∧
    (1 ≤ improveAttributeValue current change ∧
      improveAttributeValue current change ≤ 100) := by
  unfold applyEventChange improveAttributeValue
  omega

/-! ## The at-bat simulator (`simulate_at_bat`, game_sim.py lines 220-275)

The two `random.random()` draws (outcome roll, hit-type roll) are injected
as rational parameters `rand` and `rand2`; the `perform_fielding_check`
collaborator — which draws its own randoms and consults the fielders —
is injected as the function parameter `fc`. -/

inductive ABKind
  | walk
  | hbp
  | strikeout
  | out
  | hit
deriving DecidableEq

/-- Embeds `AtBatResult`, reduced to the fields the state machine consumes:
the outcome tag, `bases_advanced` and `runs_scored`. -/
structure ABRes where
  kind : ABKind
  basesAdvanced : Nat := 0
  runsScored : Nat := 0
deriving DecidableEq

inductive PlayType
  | groundBall
  | flyBall
  | lineDrive
deriving DecidableEq

/-- Embeds `determine_hit_type` (game_sim.py lines 277-297): power is
`(batter.velocity + batter.control) / 200`; a home run (12% band, power
above 0.4) carries `runs_scored = count_runners() + 1`; triples, doubles
and singles are routed through the fielding check. -/
def determineHitType (fc : PlayType → Option ABRes → ABRes) (bases : Bases)
    (batter : Player) (rand2 : Rat) : ABRes :=
  let power : Rat := (batter.velocity + batter.control) / 200
  if rand2 < 0.12 ∧ 0.4 < power then
    { kind := .hit, basesAdvanced := 4, runsScored := countRunners bases + 1 }
  else if rand2 < 0.15 then
    fc .flyBall (some { kind := .hit, basesAdvanced := 3 })
  else if rand2 < 0.35 then
    fc .lineDrive (some { kind := .hit, basesAdvanced := 2 })
  else
    fc .groundBall (some { kind := .hit, basesAdvanced := 1 })

/-- Embeds `simulate_at_bat` (game_sim.py lines 220-275).  The guard comes first:
a pitcher whose velocity exceeds 75 gives an automatic walk.  Otherwise the
skill-modified base probabilities are assembled and the outcome roll `rand`
is walked through walk / hbp / strikeout / out / hit bands. -/
def simulateAtBat (fc : PlayType → Option ABRes → ABRes) (bases : Bases)
    (batter pitcher : Player) (rand rand2 : Rat) : ABRes :=
  if 75 < pitcher.velocity then { kind := .walk }
  else
    let pitcher_control : Rat := pitcher.control / 100
    let batter_contact : Rat := (batter.velocity + batter.control) / 200
    let base_walk : Rat := 0.08
    let base_hbp : Rat := 0.02
    let base_strikeout : Rat := 0.25
    let base_hit : Rat := 0.15
    let control_modifier := (pitcher_control - 0.5) * 0.3
    let base_walk := max 0.02 (base_walk - control_modifier)
    let base_strikeout := min 0.45 (base_strikeout + control_modifier * 0.5)
    let contact_modifier := (batter_contact - 0.5) * 0.2
    let base_strikeout := max 0.15 (base_strikeout - contact_modifier)
    let base_hit := min 0.25 (base_hit + contact_modifier * 0.3)
    let base_hit := min 0.20 (max 0.05 base_hit)
    let base_walk := min 0.12 (max 0.02 base_walk)
    let base_strikeout := min 0.40 (max 0.15 base_strikeout)
    let base_out := 1 - base_walk - base_hbp - base_strikeout - base_hit
    let needed := 0.35 - base_out
    let base_hit := if base_out < 0.35 then max 0.05 (base_hit - needed * 0.5) else base_hit
    let base_walk := if base_out < 0.35 then max 0.02 (base_walk - needed * 0.5) else base_walk
    let base_out :=
      if base_out < 0.35 then 1 - base_walk - base_hbp - base_strikeout - base_hit
      else base_out
    if rand < base_walk then { kind := .walk }
    else if rand < base_walk + base_hbp then { kind := .hbp }
    else if rand < base_walk + base_hbp + base_strikeout then { kind := .strikeout }
    else if rand < base_walk + base_hbp + base_strikeout + base_out then
      fc .groundBall none
    else determineHitType fc bases batter rand2

/-- C10: whenever the pitcher's velocity exceeds 75, `simulate_at_bat`
returns a walk (the speed-limit automatic ball) no matter the random
draws, the base state, the fielding-check collaborator, or either player's
other attributes — the skill-based probability bands are never consulted. -/
theorem c10_speed_limit_walk (fc : PlayType → Option ABRes → ABRes)
    (bases : Bases) (batter pitcher : Player) (rand rand2 : Rat)
    (h : 75 < pitcher.velocity) :
    simulateAtBat fc bases batter pitcher rand rand2 = { kind := ABKind.walk } := by
  unfold simulateAtBat
  rw [if_pos h]

/-- C10 witness: a pitcher at 80 mph walks the batter on any draw. -/
theorem c10_speed_limit_walk_witness :
    simulateAtBat (fun _ o => o.getD { kind := ABKind.out }) ⟨false, false, false⟩
      {} { velocity := 80 } 0.99 0.5 = { kind := ABKind.walk } :=
  c10_speed_limit_walk _ _ _ _ _ _ (by decide)

/-! ## At-bat outcome probabilities (probability.py)

`calculate_outcome_probabilities` is embedded over exact rationals.  The
scale factors and bias constants come from an external YAML file
(config_loader.py), so they are a parameter structure here; `sigmoid` is
the real logistic `1 / (1 + exp (-x))` (clamped on overflow to 0.0 / 1.0),
a transcendental function, so it is a function parameter constrained to
[0,1] where a theorem needs that fact. -/

/-- Embeds `normalize_attribute`: `(value - 50) / 50`. -/
def normalizeAttribute (v : Int) : Rat := (v - 50) / 50

/-- The externally configured `probability_factors` (skill_model.yml). -/
structure ProbFactors where
  pitcherVelocityWeight : Rat
  pitcherMovementWeight : Rat
  pitcherControlWeight : Rat
  hitterContactWeight : Rat
  hitterDisciplineWeight : Rat
  hitterPowerWeight : Rat
  strikeoutFactor : Rat
  walkFactor : Rat
  hitFactor : Rat
  homerunFactor : Rat
  baseStrikeoutAdjustment : Rat
  baseWalkAdjustment : Rat
  baseHitAdjustment : Rat
  baseHomerunAdjustment : Rat
  clutchModifier : Rat
  fatigueModifier : Rat
deriving DecidableEq

inductive Situation
  | clutch
  | fatigue
  | speedLimitPressure
deriving DecidableEq

structure SitModifier where
  strikeout : Rat
  walk : Rat
  hit : Rat
  homerun : Rat
deriving DecidableEq

/-- Embeds `_get_situational_modifier` (probability.py lines 181-212). -/
def getSituationalModifier (f : ProbFactors) (s : Situation)
    (pitcher batter : Player) : SitModifier :=
  match s with
  | .clutch =>
      let pitcher_clutch := normalizeAttribute pitcher.clutch
      let batter_clutch := normalizeAttribute batter.clutch
      let cm := (batter_clutch - pitcher_clutch) * f.clutchModifier
      { strikeout := -(cm * 0.3), walk := 0, hit := cm, homerun := cm * 0.5 }
  | .fatigue =>
      { strikeout := f.fatigueModifier, walk := -(f.fatigueModifier * 1.5),
        hit := -(f.fatigueModifier * 0.8), homerun := 0 }
  | .speedLimitPressure =>
      if 70 ≤ pitcher.velocity then
        let pe := normalizeAttribute (pitcher.velocity - 65) * 0.2
        { strikeout := 0, walk := -pe, hit := pe * 0.5, homerun := 0 }
      else { strikeout := 0, walk := 0, hit := 0, homerun := 0 }

/-- The four raw logistic inputs (strikeout, walk, hit, homerun) of
`calculate_outcome_probabilities` (probability.py lines 41-90), including
the situational deltas when a situation is supplied. -/
def rawInputs (f : ProbFactors) (pitcher batter : Player)
    (situation : Option Situation) : Rat × Rat × Rat × Rat :=
  let pitcher_velocity := normalizeAttribute pitcher.velocity
  let pitcher_movement := normalizeAttribute pitcher.movement
  let pitcher_control := normalizeAttribute pitcher.control
  let pitcher_deception := normalizeAttribute pitcher.deception
  let batter_contact := normalizeAttribute batter.contact
  let batter_discipline := normalizeAttribute batter.discipline
  let batter_power := normalizeAttribute batter.power
  let pitcher_stuff := pitcher_velocity * f.pitcherVelocityWeight +
    pitcher_movement * f.pitcherMovementWeight + pitcher_control * f.pitcherControlWeight
  let pitcher_command := pitcher_control * 0.6 + pitcher_deception * 0.4
  let batter_hit_ability := batter_contact * f.hitterContactWeight + batter_discipline * 0.3
  let batter_plate_discipline := batter_discipline * f.hitterDisciplineWeight +
    batter_contact * 0.3
  let strikeout_input := f.strikeoutFactor * (pitcher_stuff - batter_hit_ability) +
    f.baseStrikeoutAdjustment
  let walk_input := f.walkFactor * (batter_plate_discipline - pitcher_command) +
    f.baseWalkAdjustment
  let hit_input := f.hitFactor * (batter_hit_ability - pitcher_stuff * 0.8) +
    f.baseHitAdjustment
  let homerun_input := f.homerunFactor * (batter_power * f.hitterPowerWeight -
    pitcher_stuff * 0.6) + f.baseHomerunAdjustment
  match situation with
  | none => (strikeout_input, walk_input, hit_input, homerun_input)
  | some s =>
      let m := getSituationalModifier f s pitcher batter
      (strikeout_input + m.strikeout, walk_input + m.walk,
       hit_input + m.hit, homerun_input + m.homerun)

/-- The unnormalized quadruple (strikeout, walk, ball-in-play, homerun)
after the sigmoid step and the home-run split
`p_hit_no_hr = p_hit_raw * (1 - p_homerun_raw)` (probability.py 93-99). -/
def rawQuad (sig : Rat → Rat) (f : ProbFactors) (pitcher batter : Player)
    (situation : Option Situation) : Rat × Rat × Rat × Rat :=
  let i := rawInputs f pitcher batter situation
  (sig i.1, sig i.2.1, sig i.2.2.1 * (1 - sig i.2.2.2), sig i.2.2.2)

/-- Embeds `raw_total` (probability.py line 102). -/
def rawTotal (sig : Rat → Rat) (f : ProbFactors) (pitcher batter : Player)
    (situation : Option Situation) : Rat :=
  let q := rawQuad sig f pitcher batter situation
  q.1 + q.2.1 + q.2.2.1 + q.2.2.2

structure OutcomeProbs where
  strikeout : Rat
  walk : Rat
  ballInPlay : Rat
  homerun : Rat
  out : Rat
deriving DecidableEq

/-- Embeds `calculate_outcome_probabilities` (probability.py lines 34-129): if the
unnormalized total is below 0.1 the four raw values are replaced by the
fallback constants 0.25 / 0.08 / 0.15 / 0.02 and the total is recomputed;
either way each value is then divided by the total, and `out` is the
remainder `1 - sum`, floored at 0. -/
def calculateOutcomeProbabilities (sig : Rat → Rat) (f : ProbFactors)
    (pitcher batter : Player) (situation : Option Situation) : OutcomeProbs :=
  let q0 := rawQuad sig f pitcher batter situation
  let q : Rat × Rat × Rat × Rat :=
    if rawTotal sig f pitcher batter situation < 0.1 then (0.25, 0.08, 0.15, 0.02) else q0
  let T := q.1 + q.2.1 + q.2.2.1 + q.2.2.2
  let ps := q.1 / T
  let pw := q.2.1 / T
  let pb := q.2.2.1 / T
  let phr := q.2.2.2 / T
  { strikeout := ps, walk := pw, ballInPlay := pb, homerun := phr,
    out := max 0 (1 - (ps + pw + pb + phr)) }

/-- Normalizing a nonnegative quadruple with positive total yields four
nonnegative ratios summing to 1, leaving a floored remainder of 0. -/
theorem quad_normalize_closure (a b c d : Rat) (ha : 0 ≤ a) (hb : 0 ≤ b)
    (hc : 0 ≤ c) (hd : 0 ≤ d) (hT : 0 < a + b + c + d) :
    (0 ≤ a / (a + b + c + d) ∧ 0 ≤ b / (a + b + c + d) ∧
     0 ≤ c / (a + b + c + d) ∧ 0 ≤ d / (a + b + c + d)) ∧
    a / (a + b + c + d) + b / (a + b + c + d) + c / (a + b + c + d) +
      d / (a + b + c + d) = 1 := by
  constructor
  · exact ⟨div_nonneg ha hT.le, div_nonneg hb hT.le,
      div_nonneg hc hT.le, div_nonneg hd hT.le⟩
  · rw [div_add_div_same, div_add_div_same, div_add_div_same]
    exact div_self hT.ne'

/-- C6: for every pitcher/batter pair, factor configuration and optional
situation, as long as the sigmoid maps into [0,1] (the logistic function
does), the five returned probabilities are each ≥ 0 and sum to exactly 1. -/
theorem c6_probability_closure (sig : Rat → Rat) (f : ProbFactors)
    (pitcher batter : Player) (situation : Option Situation)
    (hsig : ∀ x, 0 ≤ sig x ∧ sig x ≤ 1) :
    let P := calculateOutcomeProbabilities sig f pitcher batter situation
    (0 ≤ P.strikeout ∧ 0 ≤ P.walk ∧ 0 ≤ P.ballInPlay ∧ 0 ≤ P.homerun ∧ 0 ≤ P.out) ∧
    P.strikeout + P.walk + P.ballInPlay + P.homerun + P.out = 1 := by
  intro P
  have key : (0 ≤ P.strikeout ∧ 0 ≤ P.walk ∧ 0 ≤ P.ballInPlay ∧ 0 ≤ P.homerun) ∧
      P.strikeout + P.walk + P.ballInPlay + P.homerun = 1 := by
    show (0 ≤ _ ∧ 0 ≤ _ ∧ 0 ≤ _ ∧ 0 ≤ _) ∧ _
    unfold P calculateOutcomeProbabilities
    by_cases hfb : rawTotal sig f pitcher batter situation < 0.1
    · simp only [if_pos hfb]
      exact quad_normalize_closure _ _ _ _ (by norm_num) (by norm_num)
        (by norm_num) (by norm_num) (by norm_num)
    · simp only [if_neg hfb]
      have hT : 0 < (rawQuad sig f pitcher batter situation).1 +
          (rawQuad sig f pitcher batter situation).2.1 +
          (rawQuad sig f pitcher batter situation).2.2.1 +
          (rawQuad sig f pitcher batter situation).2.2.2 := by
        have := not_lt.mp hfb
        unfold rawTotal at this
        calc (0 : Rat) < 0.1 := by norm_num
        _ ≤ _ := this
      exact quad_normalize_closure _ _ _ _ (hsig _).1 (hsig _).1
        (mul_nonneg (hsig _).1 (by linarith [(hsig ((rawInputs f pitcher batter situation).2.2.2)).2]))
        (hsig _).1 hT
  have hout : P.out = 0 := by
    have : P.out = max 0 (1 - (P.strikeout + P.walk + P.ballInPlay + P.homerun)) := rfl
    rw [this, key.2]
    norm_num
  refine ⟨⟨key.1.1, key.1.2.1, key.1.2.2.1, key.1.2.2.2, by rw [hout]⟩, ?_⟩
  rw [hout, key.2]
  norm_num

/-- A constant sigmoid stand-in used for concrete evaluations. -/
def halfSig : Rat → Rat := fun _ => 1 / 2

/-- A constant-zero sigmoid stand-in: drives the unnormalized total to 0. -/
def zeroSig : Rat → Rat := fun _ => 0

/-- An all-zero factor configuration (the YAML factors are external data). -/
def zeroFactors : ProbFactors :=
  ⟨0, 0, 0, 0, 0, 0, 0, 0, 0, 0, 0, 0, 0, 0, 0, 0⟩

/-- C6 witness: the closure property evaluated at a concrete sigmoid
(constantly 1/2), the zero factor configuration and default players. -/
theorem c6_probability_closure_witness :
    (∀ x : Rat, 0 ≤ halfSig x ∧ halfSig x ≤ 1) ∧
    (let P := calculateOutcomeProbabilities halfSig zeroFactors {} {} none
     (0 ≤ P.strikeout ∧ 0 ≤ P.walk ∧ 0 ≤ P.ballInPlay ∧ 0 ≤ P.homerun ∧ 0 ≤ P.out) ∧
     P.strikeout + P.walk + P.ballInPlay + P.homerun + P.out = 1) :=
  ⟨fun _ => by norm_num [halfSig],
   c6_probability_closure halfSig zeroFactors {} {} none
     (fun _ => by norm_num [halfSig])⟩

/-- C3 counterexample: with a sigmoid collapsing to 0 the unnormalized
total is 0 (pathologically small), yet the returned strikeout probability
is 0.5, not the documented 0.25: the fallback constants are re-divided by
their own sum 0.5 before being returned. -/
theorem c3_fallback_cex :
    rawTotal zeroSig zeroFactors {} {} none < 0.1 ∧
    (calculateOutcomeProbabilities zeroSig zeroFactors {} {} none).strikeout = 0.5 ∧
    (0.5 : Rat) ≠ 0.25 := by
  have h : rawTotal zeroSig zeroFactors {} {} none < 0.1 := by
    norm_num [rawTotal, rawQuad, zeroSig]
  refine ⟨h, ?_, by norm_num⟩
  unfold calculateOutcomeProbabilities
  simp only [if_pos h]
  norm_num

/-- C3 amended: whenever the unnormalized probability total is below 0.1,
`calculate_outcome_probabilities` returns the safe constants renormalized
by their sum 0.5 — strikeout 0.5, walk 0.16, ball-in-play 0.3, home run
0.04 — and an out remainder of exactly 0. -/
theorem c3_fallback_is_normalized (sig : Rat → Rat) (f : ProbFactors)
    (pitcher batter : Player) (situation : Option Situation)
    (h : rawTotal sig f pitcher batter situation < 0.1) :
    calculateOutcomeProbabilities sig f pitcher batter situation =
      { strikeout := 0.5, walk := 0.16, ballInPlay := 0.3, homerun := 0.04, out := 0 } := by
  unfold calculateOutcomeProbabilities
  simp only [if_pos h]
  norm_num [OutcomeProbs.mk.injEq]

/-- C3 witness: `c3_fallback_is_normalized` applied at the concrete
zero sigmoid, whose unnormalized total 0 is below 0.1. -/
theorem c3_fallback_is_normalized_witness :
    rawTotal zeroSig zeroFactors {} {} none < 0.1 ∧
    calculateOutcomeProbabilities zeroSig zeroFactors {} {} none =
      { strikeout := 0.5, walk := 0.16, ballInPlay := 0.3, homerun := 0.04, out := 0 } := by
  have h : rawTotal zeroSig zeroFactors {} {} none < 0.1 := by
    norm_num [rawTotal, rawQuad, zeroSig]
  exact ⟨h, c3_fallback_is_normalized zeroSig zeroFactors {} {} none h⟩

/-! ## Season schedule (`generate_schedule`, season_sim.py lines 23-32)

The double loop `for i / for j in range(i+1, n) / 3 copies` followed by
`random.shuffle`.  The shuffle is an arbitrary permutation of the list, so
the theorem quantifies over any permutation of the generated schedule. -/

/-- The pairs `(teams[i], teams[j])` for `i < j`, in loop order. -/
def pairAll {α : Type} : List α → List (α × α)
  | [] => []
  | t :: ts => (ts.map fun u => (t, u)) ++ pairAll ts

/-- Embeds `generate_schedule` before the shuffle: each `i < j` pair three times. -/
def generateSchedule {α : Type} (teams : List α) : List (α × α) :=
  (pairAll teams).flatMap fun p => List.replicate 3 p

theorem pairAll_length {α : Type} (l : List α) :
    2 * (pairAll l).length = l.length * (l.length - 1) := by
  induction l with
  | nil => rfl
  | cons t ts ih =>
    simp only [pairAll, List.length_append, List.length_map, List.length_cons]
    cases ts with
    | nil => simp [pairAll]
    | cons u us =>
      simp only [List.length_cons] at ih ⊢
      simp only [Nat.add_sub_cancel] at ih ⊢
      nlinarith [ih]

theorem mem_pairAll {α : Type} {p : α × α} :
    ∀ {l : List α}, p ∈ pairAll l → p.1 ∈ l ∧ p.2 ∈ l := by
  intro l
  induction l with
  | nil => simp [pairAll]
  | cons t ts ih =>
    intro hp
    rcases List.mem_append.1 hp with hl | hr
    · obtain ⟨u, hu, he⟩ := List.mem_map.1 hl
      refine ⟨?_, ?_⟩
      · rw [← he]; exact List.mem_cons_self t ts
      · rw [← he]; exact List.mem_cons_of_mem t hu
    · exact ⟨List.mem_cons_of_mem t (ih hr).1, List.mem_cons_of_mem t (ih hr).2⟩

theorem count_map_pair {α : Type} [DecidableEq α] (t y : α) (ts : List α) :
    (ts.map fun u => (t, u)).count (t, y) = ts.count y := by
  induction ts with
  | nil => rfl
  | cons u us ihu => simp [List.count_cons, ihu, Prod.ext_iff]

theorem count_pairAll_pair {α : Type} [DecidableEq α] {l : List α} (hnd : l.Nodup)
    {a b : α} (ha : a ∈ l) (hb : b ∈ l) (hab : a ≠ b) :
    (pairAll l).count (a, b) + (pairAll l).count (b, a) = 1 := by
  induction l with
  | nil => exact absurd ha (List.not_mem_nil a)
  | cons t ts ih =>
    have hndt : t ∉ ts := (List.nodup_cons.1 hnd).1
    have hnds : ts.Nodup := (List.nodup_cons.1 hnd).2
    have hmap_eq : ∀ x y : α, x = t →
        (ts.map fun u => (t, u)).count (x, y) = ts.count y := by
      intro x y hx
      subst hx
      exact count_map_pair x y ts
    have hmap_ne : ∀ x y : α, x ≠ t →
        (ts.map fun u => (t, u)).count (x, y) = 0 := by
      intro x y hx
      refine List.count_eq_zero.2 fun hmem => ?_
      obtain ⟨u, _, he⟩ := List.mem_map.1 hmem
      exact hx ((Prod.ext_iff).1 he).1.symm
    have hrec_zero : ∀ x y : α, x ∉ ts → (pairAll ts).count (x, y) = 0 := by
      intro x y hx
      exact List.count_eq_zero.2 fun hmem => hx (mem_pairAll hmem).1
    simp only [pairAll, List.count_append]
    rcases List.mem_cons.1 ha with rfl | hats
    · have hbts : b ∈ ts := by
        rcases List.mem_cons.1 hb with rfl | h
        · exact absurd rfl hab
        · exact h
      rw [hmap_eq a b rfl, hmap_ne b a (fun h => hab h.symm),
        hrec_zero a b hndt, List.count_eq_one_of_mem hnds hbts,
        List.count_eq_zero.2 (fun h => hndt (mem_pairAll h).2)]
    · rcases List.mem_cons.1 hb with rfl | hbts
      · rw [hmap_ne a b (fun h => hndt (h ▸ hats)), hmap_eq b a rfl,
          List.count_eq_one_of_mem hnds hats,
          List.count_eq_zero.2 (fun h => hndt (mem_pairAll h).2),
          hrec_zero b a hndt]
      · rw [hmap_ne a b (fun h => hndt (h ▸ hats)),
          hmap_ne b a (fun h => hndt (h ▸ hbts))]
        simpa using ih hnds hats hbts

theorem count_generateSchedule {α : Type} [DecidableEq α] (teams : List α)
    (x : α × α) :
    (generateSchedule teams).count x = 3 * (pairAll teams).count x := by
  unfold generateSchedule
  induction pairAll teams with
  | nil => rfl
  | cons p ps ih =>
    simp only [List.flatMap_cons, List.count_append, List.count_cons, ih,
      List.count_replicate]
    by_cases hx : p = x
    · simp [hx, List.count_replicate]
      try omega
    · simp [hx, List.count_replicate]
      try omega

theorem length_generateSchedule {α : Type} (teams : List α) :
    (generateSchedule teams).length = 3 * (pairAll teams).length := by
  unfold generateSchedule
  induction pairAll teams with
  | nil => rfl
  | cons p ps ih => simp only [List.flatMap_cons, List.length_append, ih,
      List.length_replicate, List.length_cons]; omega

/-- Shuffling preserves element counts. -/
theorem permCount {β : Type} [BEq β] {l1 l2 : List β} (h : List.Perm l1 l2)
    (x : β) : l1.count x = l2.count x :=
  h.countP_eq _

/-- C7: for `N` distinct teams, any shuffle of the generated schedule has
exactly `3 * N * (N-1) / 2` games, and every unordered pair of distinct
teams appears as a (home, away) matchup — in one orientation or the other —
exactly 3 times. -/
theorem c7_round_robin {α : Type} [DecidableEq α] (teams : List α)
    (l' : List (α × α)) (hnd : teams.Nodup)
    (hperm : (generateSchedule teams).Perm l') :
    l'.length = 3 * teams.length * (teams.length - 1) / 2 ∧
    ∀ a b, a ∈ teams → b ∈ teams → a ≠ b →
      l'.count (a, b) + l'.count (b, a) = 3 := by
  constructor
  · rw [← hperm.length_eq, length_generateSchedule, mul_assoc]
    have h2 := pairAll_length teams
    omega
  · intro a b ha hb hab
    have hc1 := permCount hperm (a, b)
    have hc2 := permCount hperm (b, a)
    rw [← hc1, ← hc2, count_generateSchedule, count_generateSchedule,
      ← Nat.mul_add, count_pairAll_pair hnd ha hb hab]

/-- C7 witness: three teams give 9 games, and the pair (0, 1) appears
3 times. -/
theorem c7_round_robin_witness :
    (generateSchedule [0, 1, 2]).length = 3 * 3 * 2 / 2 ∧
    (generateSchedule [0, 1, 2]).count ((0 : Nat), (1 : Nat)) +
      (generateSchedule [0, 1, 2]).count (1, 0) = 3 := by
  have h := c7_round_robin [0, 1, 2] (generateSchedule [0, 1, 2])
    (by decide) (List.Perm.refl _)
  exact ⟨by simpa using h.1, h.2 0 1 (by decide) (by decide) (by decide)⟩

/-! ## Playoff series (`play_series`, season_sim.py lines 190-251)

The per-game scores come from `_simulate_full_game`, which mutates only
player statistics, never team counters; they are injected as a list of
(away_score, home_score) pairs.  Home field alternates game to game
(team1 is home in odd-numbered games); a tied game is awarded to the home
team; each game adds one `playoff_wins` to the winner and one
`playoff_losses` to the loser. -/

structure TeamRec where
  wins : Nat := 0
  losses : Nat := 0
  ties : Nat := 0
  playoff_wins : Nat := 0
  playoff_losses : Nat := 0
  runs_scored : Nat := 0
  runs_allowed : Nat := 0
deriving DecidableEq

def addPlayoffWin (t : TeamRec) : TeamRec :=
  { t with playoff_wins := t.playoff_wins + 1 }

def addPlayoffLoss (t : TeamRec) : TeamRec :=
  { t with playoff_losses := t.playoff_losses + 1 }

/-- The `while team1_wins < wins_needed and team2_wins < wins_needed` loop. -/
def seriesGo (winsNeeded : Nat) :
    Nat → Nat → Nat → TeamRec → TeamRec → List (Nat × Nat) → TeamRec × TeamRec
  | _, _, _, t1, t2, [] => (t1, t2)
  | gameNum, w1, w2, t1, t2, (a, h) :: rest =>
    if winsNeeded ≤ w1 ∨ winsNeeded ≤ w2 then (t1, t2)
    else
      let homeIsT1 := gameNum % 2 = 1
      let t1WinsGame := if homeIsT1 then a ≤ h else h < a
      if t1WinsGame then
        seriesGo winsNeeded (gameNum + 1) (w1 + 1) w2
          (addPlayoffWin t1) (addPlayoffLoss t2) rest
      else
        seriesGo winsNeeded (gameNum + 1) w1 (w2 + 1)
          (addPlayoffLoss t1) (addPlayoffWin t2) rest

/-- Embeds `play_series`: `wins_needed = best_of // 2 + 1`, starting at game 1
with 0 series wins each. -/
def playSeries (t1 t2 : TeamRec) (bestOf : Nat) (scores : List (Nat × Nat)) :
    TeamRec × TeamRec :=
  seriesGo (bestOf / 2 + 1) 1 0 0 t1 t2 scores

theorem seriesGo_frame (winsNeeded : Nat) (scores : List (Nat × Nat)) :
    ∀ gameNum w1 w2 (t1 t2 : TeamRec),
      (seriesGo winsNeeded gameNum w1 w2 t1 t2 scores).1.wins = t1.wins ∧
      (seriesGo winsNeeded gameNum w1 w2 t1 t2 scores).1.losses = t1.losses ∧
      (seriesGo winsNeeded gameNum w1 w2 t1 t2 scores).1.ties = t1.ties ∧
      (seriesGo winsNeeded gameNum w1 w2 t1 t2 scores).1.runs_scored = t1.runs_scored ∧
      (seriesGo winsNeeded gameNum w1 w2 t1 t2 scores).1.runs_allowed = t1.runs_allowed ∧
      (seriesGo winsNeeded gameNum w1 w2 t1 t2 scores).2.wins = t2.wins ∧
      (seriesGo winsNeeded gameNum w1 w2 t1 t2 scores).2.losses = t2.losses ∧
      (seriesGo winsNeeded gameNum w1 w2 t1 t2 scores).2.ties = t2.ties ∧
      (seriesGo winsNeeded gameNum w1 w2 t1 t2 scores).2.runs_scored = t2.runs_scored ∧
      (seriesGo winsNeeded gameNum w1 w2 t1 t2 scores).2.runs_allowed = t2.runs_allowed ∧
      ∃ g, (seriesGo winsNeeded gameNum w1 w2 t1 t2 scores).1.playoff_wins +
             (seriesGo winsNeeded gameNum w1 w2 t1 t2 scores).2.playoff_wins =
             t1.playoff_wins + t2.playoff_wins + g ∧
           (seriesGo winsNeeded gameNum w1 w2 t1 t2 scores).1.playoff_losses +
             (seriesGo winsNeeded gameNum w1 w2 t1 t2 scores).2.playoff_losses =
             t1.playoff_losses + t2.playoff_losses + g := by
  induction scores with
  | nil =>
    intro gameNum w1 w2 t1 t2
    refine ⟨rfl, rfl, rfl, rfl, rfl, rfl, rfl, rfl, rfl, rfl, 0, ?_, ?_⟩ <;> rfl
  | cons s rest ih =>
    intro gameNum w1 w2 t1 t2
    obtain ⟨a, h⟩ := s
    by_cases hstop : winsNeeded ≤ w1 ∨ winsNeeded ≤ w2
    · have hres : seriesGo winsNeeded gameNum w1 w2 t1 t2 ((a, h) :: rest) = (t1, t2) := by
        simp only [seriesGo, if_pos hstop]
      rw [hres]
      exact ⟨rfl, rfl, rfl, rfl, rfl, rfl, rfl, rfl, rfl, rfl, 0, rfl, rfl⟩
    · by_cases hwin : (if gameNum % 2 = 1 then a ≤ h else h < a)
      · have hres : seriesGo winsNeeded gameNum w1 w2 t1 t2 ((a, h) :: rest) =
            seriesGo winsNeeded (gameNum + 1) (w1 + 1) w2
              (addPlayoffWin t1) (addPlayoffLoss t2) rest := by
          simp only [seriesGo, if_neg hstop, if_pos hwin]
        rw [hres]
        obtain ⟨e1, e2, e3, e4, e5, f1, f2, f3, f4, f5, g, hg1, hg2⟩ :=
          ih (gameNum + 1) (w1 + 1) w2 (addPlayoffWin t1) (addPlayoffLoss t2)
        refine ⟨e1, e2, e3, e4, e5, f1, f2, f3, f4, f5, g + 1, ?_, ?_⟩ <;>
        · simp only [show (addPlayoffWin t1).playoff_wins = t1.playoff_wins + 1 from rfl,
            show (addPlayoffLoss t2).playoff_wins = t2.playoff_wins from rfl,
            show (addPlayoffWin t1).playoff_losses = t1.playoff_losses from rfl,
            show (addPlayoffLoss t2).playoff_losses = t2.playoff_losses + 1 from rfl]
            at hg1 hg2
          omega
      · have hres : seriesGo winsNeeded gameNum w1 w2 t1 t2 ((a, h) :: rest) =
            seriesGo winsNeeded (gameNum + 1) w1 (w2 + 1)
              (addPlayoffLoss t1) (addPlayoffWin t2) rest := by
          simp only [seriesGo, if_neg hstop, if_neg hwin]
        rw [hres]
        obtain ⟨e1, e2, e3, e4, e5, f1, f2, f3, f4, f5, g, hg1, hg2⟩ :=
          ih (gameNum + 1) w1 (w2 + 1) (addPlayoffLoss t1) (addPlayoffWin t2)
        refine ⟨e1, e2, e3, e4, e5, f1, f2, f3, f4, f5, g + 1, ?_, ?_⟩ <;>
        · simp only [show (addPlayoffLoss t1).playoff_wins = t1.playoff_wins from rfl,
            show (addPlayoffWin t2).playoff_wins = t2.playoff_wins + 1 from rfl,
            show (addPlayoffLoss t1).playoff_losses = t1.playoff_losses + 1 from rfl,
            show (addPlayoffWin t2).playoff_losses = t2.playoff_losses from rfl]
            at hg1 hg2
          omega

/-- C9: playing a playoff series — for any best-of length and any injected
sequence of game scores — leaves both teams' regular-season wins, losses
and ties (and run totals) exactly as they were; the games increment only
the separate playoff counters, one playoff win and one playoff loss per
game played. -/
theorem c9_playoff_frame (t1 t2 : TeamRec) (bestOf : Nat)
    (scores : List (Nat × Nat)) :
    (playSeries t1 t2 bestOf scores).1.wins = t1.wins ∧
    (playSeries t1 t2 bestOf scores).1.losses = t1.losses ∧
    (playSeries t1 t2 bestOf scores).1.ties = t1.ties ∧
    (playSeries t1 t2 bestOf scores).2.wins = t2.wins ∧
    (playSeries t1 t2 bestOf scores).2.losses = t2.losses ∧
    (playSeries t1 t2 bestOf scores).2.ties = t2.ties ∧
    ∃ g, (playSeries t1 t2 bestOf scores).1.playoff_wins +
           (playSeries t1 t2 bestOf scores).2.playoff_wins =
           t1.playoff_wins + t2.playoff_wins + g ∧
         (playSeries t1 t2 bestOf scores).1.playoff_losses +
           (playSeries t1 t2 bestOf scores).2.playoff_losses =
           t1.playoff_losses + t2.playoff_losses + g := by
  obtain ⟨e1, e2, e3, _, _, f1, f2, f3, _, _, g, hg1, hg2⟩ :=
    seriesGo_frame (bestOf / 2 + 1) scores 1 0 0 t1 t2
  exact ⟨e1, e2, e3, f1, f2, f3, g, hg1, hg2⟩

/-! ## Rotation manager (`get_available_pitcher`, season_sim.py lines 50-92)

Pitchers are identified by their index in the team's `active_roster`;
`series_pitcher_usage` becomes a usage function `Nat → Nat`.  Python's
`max` returns the first maximal element and `list.sort` is stable, so both
selections are "first minimum of a key": `max(..., key=skill)` is the first
minimum of `-skill`, and `sort(key=(games, -skill)); take first` is the
first minimum of the lexicographic key `(games, -skill)`. -/

/-- The selection key `p.velocity + p.control`. -/
def pitcherSkill (p : Player) : Int := p.velocity + p.control

def rosterGet (roster : List Player) (i : Nat) : Player := roster.getD i {}

/-- First element of `l` minimizing `k` (earlier elements win ties),
matching Python's `min`/`max`/stable-sort-head behaviour. -/
def firstMinBy {K : Type} [LinearOrder K] (k : Nat → K) : List Nat → Option Nat
  | [] => none
  | i :: rest => some (rest.foldl (fun acc j => if k j < k acc then j else acc) i)

/-- Embeds `get_available_pitcher`.  Playoff mode: best pitcher by
`velocity + control`, unconstrained.  Regular season: among the pitchers
with `games_pitched < 2` pick fewest games first, then highest skill; if
none is eligible, fall back to the least-used pitcher of the whole roster. -/
def getAvailablePitcher (roster : List Player) (usage : Nat → Nat)
    (isPlayoff : Bool) : Option Nat :=
  if isPlayoff then
    firstMinBy (fun j => -(pitcherSkill (rosterGet roster j))) (List.range roster.length)
  else
    let eligible := (List.range roster.length).filter fun j => decide (usage j < 2)
    if eligible.isEmpty then
      firstMinBy (fun j => usage j) (List.range roster.length)
    else
      firstMinBy (fun j => toLex (usage j, -(pitcherSkill (rosterGet roster j)))) eligible

/-- Embeds `record_pitcher_usage`. -/
def recordPitcherUsage (usage : Nat → Nat) (i : Nat) : Nat → Nat :=
  fun j => if j = i then usage j + 1 else usage j

/-- The three pitcher selections of one team across a 3-game series:
select, record usage, repeat, starting from zero usage. -/
def seriesSelections (roster : List Player) : List Nat :=
  match getAvailablePitcher roster (fun _ => 0) false with
  | none => []
  | some s1 =>
    match getAvailablePitcher roster (recordPitcherUsage (fun _ => 0) s1) false with
    | none => [s1]
    | some s2 =>
      match getAvailablePitcher roster
          (recordPitcherUsage (recordPitcherUsage (fun _ => 0) s1) s2) false with
      | none => [s1, s2]
      | some s3 => [s1, s2, s3]

theorem foldl_min_spec {K : Type} [LinearOrder K] (k : Nat → K) (l : List Nat) :
    ∀ acc : Nat,
      (l.foldl (fun a j => if k j < k a then j else a) acc ∈ acc :: l) ∧
      ∀ j ∈ acc :: l, k (l.foldl (fun a j => if k j < k a then j else a) acc) ≤ k j := by
  induction l with
  | nil =>
    intro acc
    refine ⟨List.mem_cons_self acc [], ?_⟩
    intro j hj
    exact le_of_eq (congrArg k (List.mem_singleton.1 hj).symm)
  | cons x xs ih =>
    intro acc
    simp only [List.foldl_cons]
    by_cases hlt : k x < k acc
    · simp only [if_pos hlt]
      obtain ⟨hmem, hle⟩ := ih x
      constructor
      · rcases List.mem_cons.1 hmem with h | h
        · rw [h]; exact List.mem_cons_of_mem acc (List.mem_cons_self x xs)
        · exact List.mem_cons_of_mem acc (List.mem_cons_of_mem x h)
      · intro j hj
        rcases List.mem_cons.1 hj with rfl | hj'
        · exact le_trans (hle x (List.mem_cons_self x xs)) hlt.le
        · exact hle j hj'
    · simp only [if_neg hlt]
      obtain ⟨hmem, hle⟩ := ih acc
      constructor
      · rcases List.mem_cons.1 hmem with h | h
        · rw [h]; exact List.mem_cons_self acc (x :: xs)
        · exact List.mem_cons_of_mem acc (List.mem_cons_of_mem x h)
      · intro j hj
        rcases List.mem_cons.1 hj with rfl | hj'
        · exact hle j (List.mem_cons_self j xs)
        · rcases List.mem_cons.1 hj' with rfl | hj''
          · exact le_trans (hle acc (List.mem_cons_self acc xs)) (not_lt.1 hlt)
          · exact hle j (List.mem_cons_of_mem acc hj'')

theorem firstMinBy_spec {K : Type} [LinearOrder K] (k : Nat → K) (l : List Nat)
    (r : Nat) (h : firstMinBy k l = some r) : r ∈ l ∧ ∀ j ∈ l, k r ≤ k j := by
  cases l with
  | nil => exact absurd h (by simp [firstMinBy])
  | cons i rest =>
    have hr : rest.foldl (fun acc j => if k j < k acc then j else acc) i = r :=
      Option.some.inj h
    obtain ⟨hmem, hle⟩ := foldl_min_spec k rest i
    exact ⟨hr ▸ hmem, fun j hj => hr ▸ hle j hj⟩

theorem firstMinBy_ne_nil {K : Type} [LinearOrder K] (k : Nat → K)
    (l : List Nat) (hl : l ≠ []) : ∃ r, firstMinBy k l = some r := by
  cases l with
  | nil => exact absurd rfl hl
  | cons i rest => exact ⟨_, rfl⟩

/-- In regular-season mode the call always yields a pitcher when the roster
is non-empty (the fallback handles an exhausted cap). -/
theorem getAvailablePitcher_some (roster : List Player) (usage : Nat → Nat)
    (hne : roster ≠ []) :
    ∃ r, getAvailablePitcher roster usage false = some r := by
  have hlen : 0 < roster.length := List.length_pos.2 hne
  have hrange : List.range roster.length ≠ [] := by
    rw [Ne, List.range_eq_nil]
    omega
  unfold getAvailablePitcher
  simp only [Bool.false_eq_true, if_false]
  by_cases he : ((List.range roster.length).filter fun j => decide (usage j < 2)).isEmpty
  · simp only [he, if_true]
    exact firstMinBy_ne_nil _ _ hrange
  · simp only [he, if_false]
    refine firstMinBy_ne_nil _ _ ?_
    intro hnil
    rw [hnil] at he
    exact he rfl

/-- The regular-season selection contract: when at least one pitcher is
still under the 2-start cap, the selected pitcher is an under-cap roster
index with the fewest series starts, ties broken by highest
`velocity + control`. -/
theorem gap_regular_spec (roster : List Player) (usage : Nat → Nat) (r : Nat)
    (h : getAvailablePitcher roster usage false = some r)
    (hex : ∃ j, j < roster.length ∧ usage j < 2) :
    r < roster.length ∧ usage r < 2 ∧
    ∀ j, j < roster.length → usage j < 2 →
      usage r ≤ usage j ∧ (usage j = usage r →
        pitcherSkill (rosterGet roster j) ≤ pitcherSkill (rosterGet roster r)) := by
  obtain ⟨j0, hj0len, hj0u⟩ := hex
  have hj0mem : j0 ∈ (List.range roster.length).filter fun j => decide (usage j < 2) :=
    List.mem_filter.2 ⟨List.mem_range.2 hj0len, by simpa using hj0u⟩
  have hne : ((List.range roster.length).filter fun j => decide (usage j < 2)) ≠ [] :=
    List.ne_nil_of_mem hj0mem
  have hie : ((List.range roster.length).filter fun j => decide (usage j < 2)).isEmpty = false := by
    cases hc : ((List.range roster.length).filter fun j => decide (usage j < 2)).isEmpty
    · rfl
    · exact absurd (List.isEmpty_iff.1 hc) hne
  unfold getAvailablePitcher at h
  simp only [Bool.false_eq_true, if_false, hie] at h
  obtain ⟨hmem, hle⟩ := firstMinBy_spec _ _ r h
  have hrmem := List.mem_filter.1 hmem
  have hrlen : r < roster.length := List.mem_range.1 hrmem.1
  have hru : usage r < 2 := by simpa using hrmem.2
  refine ⟨hrlen, hru, ?_⟩
  intro j hjlen hju
  have hjmem : j ∈ (List.range roster.length).filter fun i => decide (usage i < 2) :=
    List.mem_filter.2 ⟨List.mem_range.2 hjlen, by simpa using hju⟩
  have hkey := hle j hjmem
  rw [Prod.Lex.le_iff] at hkey
  rcases hkey with hlt | ⟨heq, hsk⟩
  · exact ⟨hlt.le, fun hjr => absurd (hjr ▸ hlt) (lt_irrefl _)⟩
  · exact ⟨heq.le, fun _ => neg_le_neg_iff.1 hsk⟩

/-- The playoff selection contract: the selected pitcher maximizes
`velocity + control` over the roster. -/
theorem gap_playoff_spec (roster : List Player) (usage : Nat → Nat) (r : Nat)
    (h : getAvailablePitcher roster usage true = some r) :
    r < roster.length ∧
    ∀ j, j < roster.length →
      pitcherSkill (rosterGet roster j) ≤ pitcherSkill (rosterGet roster r) := by
  unfold getAvailablePitcher at h
  simp only [if_true] at h
  obtain ⟨hmem, hle⟩ := firstMinBy_spec _ _ r h
  refine ⟨List.mem_range.1 hmem, ?_⟩
  intro j hjlen
  have := hle j (List.mem_range.2 hjlen)
  exact neg_le_neg_iff.1 this

/-- With at least two pitchers on the roster, no pitcher is selected more
than twice across the three selections of a series. -/
theorem seriesSelections_cap (roster : List Player) (hlen : 2 ≤ roster.length)
    (i : Nat) : (seriesSelections roster).count i ≤ 2 := by
  have hne : roster ≠ [] := by
    intro h
    rw [h] at hlen
    exact absurd hlen (by decide)
  obtain ⟨s1, hs1⟩ := getAvailablePitcher_some roster (fun _ => 0) hne
  obtain ⟨s2, hs2⟩ := getAvailablePitcher_some roster
    (recordPitcherUsage (fun _ => 0) s1) hne
  obtain ⟨s3, hs3⟩ := getAvailablePitcher_some roster
    (recordPitcherUsage (recordPitcherUsage (fun _ => 0) s1) s2) hne
  have hsel : seriesSelections roster = [s1, s2, s3] := by
    simp only [seriesSelections, hs1, hs2, hs3]
  rw [hsel]
  rcases eq_or_ne s1 i with h1 | h1
  · rcases eq_or_ne s2 i with h2 | h2
    · rcases eq_or_ne s3 i with h3 | h3
      · exfalso
        rw [h1, h2] at hs3
        have hne2 : (if i = 0 then 1 else 0) ≠ i := by
          split_ifs with hi <;> omega
        have hj0 : ∃ j, j < roster.length ∧
            recordPitcherUsage (recordPitcherUsage (fun _ => 0) i) i j < 2 := by
          refine ⟨if i = 0 then 1 else 0, ?_, ?_⟩
          · split_ifs <;> omega
          · have hz : recordPitcherUsage (recordPitcherUsage (fun _ => 0) i) i
                (if i = 0 then 1 else 0) = 0 := by
              simp [recordPitcherUsage, hne2]
            omega
        have hspec := gap_regular_spec roster _ s3 hs3 hj0
        have hlt := hspec.2.1
        rw [h3] at hlt
        simp [recordPitcherUsage] at hlt
      · simp only [List.count_cons, List.count_nil, beq_iff_eq]
        split_ifs <;> omega
    · simp only [List.count_cons, List.count_nil, beq_iff_eq]
      split_ifs <;> omega
  · simp only [List.count_cons, List.count_nil, beq_iff_eq]
    split_ifs <;> omega

/-- C5 counterexample: a roster with a single pitcher.  The first two
selections use him; for game 3 no pitcher is under the cap, so the
fallback returns the least-used pitcher — the same one — and he is
selected 3 times in the series, exceeding the 2-start cap. -/
theorem c5_single_pitcher_cex :
    seriesSelections [{}] = [0, 0, 0] ∧ 2 < (seriesSelections [{}]).count 0 := by
  have h : seriesSelections [{}] = [0, 0, 0] := rfl
  refine ⟨h, ?_⟩
  rw [h]
  decide

/-- C5 amended: in regular-season mode the rotation cap holds whenever the
roster has at least two pitchers (a single-pitcher roster exhausts the cap
and the fallback reuses that pitcher); among pitchers under the cap, the
one with the fewest series starts is chosen, ties broken by highest
`velocity + control`; in playoff mode the cap does not apply and the
roster's best pitcher by `velocity + control` is always returned. -/
theorem c5_rotation :
    (∀ roster : List Player, 2 ≤ roster.length →
      ∀ i, (seriesSelections roster).count i ≤ 2) ∧
    (∀ (roster : List Player) (usage : Nat → Nat) (r : Nat),
      getAvailablePitcher roster usage false = some r →
      (∃ j, j < roster.length ∧ usage j < 2) →
      r < roster.length ∧ usage r < 2 ∧
      ∀ j, j < roster.length → usage j < 2 →
        usage r ≤ usage j ∧ (usage j = usage r →
          pitcherSkill (rosterGet roster j) ≤ pitcherSkill (rosterGet roster r))) ∧
    (∀ (roster : List Player) (usage : Nat → Nat) (r : Nat),
      getAvailablePitcher roster usage true = some r →
      r < roster.length ∧
      ∀ j, j < roster.length →
        pitcherSkill (rosterGet roster j) ≤ pitcherSkill (rosterGet roster r)) :=
  ⟨seriesSelections_cap, gap_regular_spec, gap_playoff_spec⟩

/-- C5 witness: the cap at a concrete two-pitcher roster, and both
selection contracts at a concrete one-pitcher roster with zero usage. -/
theorem c5_rotation_witness :
    ((seriesSelections [{}, {}]).count 0 ≤ 2) ∧
    ((0 : Nat) < ([{}] : List Player).length ∧ (0 : Nat) < 2 ∧
      ∀ j, j < ([{}] : List Player).length → (0 : Nat) < 2 →
        (0 : Nat) ≤ 0 ∧ ((0 : Nat) = 0 →
          pitcherSkill (rosterGet [{}] j) ≤ pitcherSkill (rosterGet [{}] 0))) ∧
    ((0 : Nat) < ([{}] : List Player).length ∧
      ∀ j, j < ([{}] : List Player).length →
        pitcherSkill (rosterGet [{}] j) ≤ pitcherSkill (rosterGet [{}] 0)) := by
  refine ⟨c5_rotation.1 [{}, {}] (by decide) 0, ?_, ?_⟩
  · have h := c5_rotation.2.1 [{}] (fun _ => 0) 0 rfl ⟨0, by decide, by decide⟩
    exact h
  · exact c5_rotation.2.2 [{}] (fun _ => 0) 0 rfl

end WiffleBall
